import Mathlib

/-!
Verification development for the route-optimizer engine
(src/vrp_route_optimizer.py of MadsProfSyn/Profsynappservice).

Shallow embedding conventions:
* Python floats are modelled as exact rationals (ℚ).
* Wall-clock values are minutes from midnight (ℤ), matching the code's
  `minutes from midnight` integers; `datetime` values are microseconds (ℤ)
  where the rounding helper needs sub-minute resolution.
* The Supabase-backed travel-metric lookups `get_cached_travel_time` /
  `get_cached_distance_km` are abstract oracles `T D : Coord → Coord → ℚ`
  wherever the scheduling code consumes them as black boxes; the provider
  itself (`get_cached_travel_data`) is embedded separately over an abstract
  cache table.
* `itertools.permutations` enumerates all permutations of the index list;
  it is embedded as `List.permutations'` applied to the zipped
  (coordinate, payload) list.  The enumeration order differs, which only
  affects which of several equal-minimum tours is returned — an accepted
  nondeterminism boundary of the TSP contract.
-/

namespace VRP

/-! ### Numeric helpers -/

/-- Python's built-in `round` to an integer: round half to even. -/
def pythonRound (q : ℚ) : ℤ :=
  if q - ⌊q⌋ < 1/2 then ⌊q⌋
  else if 1/2 < q - ⌊q⌋ then ⌊q⌋ + 1
  else if ⌊q⌋ % 2 = 0 then ⌊q⌋ else ⌊q⌋ + 1

/-- Python's `round(x, 1)` (used for `round(leg_km, 1)` etc.). -/
def round1 (q : ℚ) : ℚ := (pythonRound (q * 10) : ℚ) / 10

/-- Python's `round(x, 5)` (used by `make_cache_key`). -/
def round5dec (q : ℚ) : ℚ := (pythonRound (q * 100000) : ℚ) / 100000

theorem pythonRound_le_add_half (q : ℚ) : (pythonRound q : ℚ) ≤ q + 1/2 := by
  unfold pythonRound
  have hfl : (⌊q⌋ : ℚ) ≤ q := Int.floor_le q
  split_ifs with h1 h2 h3
  · linarith
  · push_cast; linarith
  · linarith
  · push_cast
    have : q - (⌊q⌋ : ℚ) = 1/2 := le_antisymm (not_lt.mp h2) (not_lt.mp h1)
    linarith

theorem pythonRound_nonneg {q : ℚ} (hq : 0 ≤ q) : 0 ≤ pythonRound q := by
  unfold pythonRound
  have hfl : (0:ℤ) ≤ ⌊q⌋ := Int.floor_nonneg.mpr hq
  split_ifs <;> omega

/-- Python's `round` is the identity on integers. -/
theorem pythonRound_intCast (n : ℤ) : pythonRound (n : ℚ) = n := by
  unfold pythonRound
  rw [Int.floor_intCast]
  norm_num

/-- Round a minutes-from-midnight value up to the next multiple of 5. -/
def roundUp5 (m : ℤ) : ℤ := m + (5 - m % 5) % 5

theorem le_roundUp5 (m : ℤ) : m ≤ roundUp5 m := by
  unfold roundUp5; omega

theorem roundUp5_le (m : ℤ) : roundUp5 m ≤ m + 4 := by
  unfold roundUp5; omega

theorem roundUp5_nonneg {m : ℤ} (h : 0 ≤ m) : 0 ≤ roundUp5 m :=
  le_trans h (le_roundUp5 m)

/--
`round_to_nearest_5_min` from the source, over microseconds.  The code
computes `discard = timedelta(minutes=dt.minute % 5, seconds=dt.second,
microseconds=dt.microsecond)`; since one hour is a multiple of 5 minutes,
`discard` is exactly the datetime's microsecond value modulo
5 min = 300 000 000 µs.  When `discard` is nonzero the code adds
`5 min − discard`, landing exactly on the next 5-minute boundary, and the
final `replace(second=0, microsecond=0)` is a no-op in both branches.
-/
def round_to_nearest_5_min (t : ℤ) : ℤ :=
  if t % 300000000 = 0 then t else t + (300000000 - t % 300000000)

theorem round_to_nearest_5_min_mul (m : ℤ) :
    round_to_nearest_5_min (m * 60000000) = roundUp5 m * 60000000 := by
  unfold round_to_nearest_5_min roundUp5
  split_ifs with h <;> omega

/--
The minutes-from-midnight value the scheduler reads back after rounding:
`start_dt = day_midnight + timedelta(minutes=m)` is rounded with
`round_to_nearest_5_min` and re-extracted via
`(start_dt - day_midnight).seconds // 60`.  `timedelta.seconds` is the
seconds component after floor-normalisation into days, i.e. the total
microseconds floor-divided by 10⁶ and reduced modulo 86400, and `// 60`
is a further floor division.
-/
def roundedStartMin (m : ℤ) : ℤ :=
  ((round_to_nearest_5_min (m * 60000000) / 1000000) % 86400) / 60

/-- Wall-clock wrap-around of a minutes value (`timedelta.seconds` drops
whole days; `strftime` likewise shows the time of day only). -/
def clockWrap (m : ℤ) : ℤ := m % 1440

theorem roundedStartMin_eq (m : ℤ) :
    roundedStartMin m = (roundUp5 m) % 1440 := by
  unfold roundedStartMin
  rw [round_to_nearest_5_min_mul]
  omega

theorem roundedStartMin_of_bounds {m : ℤ} (h0 : 0 ≤ m)
    (h1 : roundUp5 m < 1440) : roundedStartMin m = roundUp5 m := by
  rw [roundedStartMin_eq]
  exact Int.emod_eq_of_lt (roundUp5_nonneg h0) h1

theorem roundedStartMin_nonneg (m : ℤ) : 0 ≤ roundedStartMin m := by
  rw [roundedStartMin_eq]
  exact Int.emod_nonneg _ (by norm_num)

theorem roundedStartMin_le {m : ℤ} (h0 : 0 ≤ m) :
    roundedStartMin m ≤ m + 4 := by
  rw [roundedStartMin_eq]
  have h2 := roundUp5_le m
  have h3 := roundUp5_nonneg h0
  omega

/-! ### Coordinates and the travel-metric provider -/

/-- A WGS84 coordinate pair, as the pervasive `(lat, lng)` float tuples. -/
structure Coord where
  lat : ℚ
  lng : ℚ
deriving DecidableEq, Repr

/-- One row of the `mapbox_travel_cache` table: both columns are nullable. -/
structure CacheRow where
  minutes : Option ℚ
  distance_km : Option ℚ
deriving DecidableEq, Repr

/--
`make_cache_key`: the canonical key is built from the four coordinates
rounded to 5 decimals and rendered `(lng,lat)->(lng,lat)` with fixed
`%.5f` formatting.  Two coordinate pairs collide exactly when the four
rounded values agree, so the key is modelled as that quadruple (in the
`from_lng, from_lat, to_lng, to_lat` order of the format string).
-/
def make_cache_key (fromC toC : Coord) : ℚ × ℚ × ℚ × ℚ :=
  (round5dec fromC.lng, round5dec fromC.lat, round5dec toC.lng, round5dec toC.lat)

/--
`estimate_travel_minutes`, parametrised by the haversine distance function
`hav` (the concrete trigonometric formula lives in the real-valued section
below; schedulers and the cache fallback only consume its output).
The `km ≤ 1` branch of the source assigns the same 25 km/h as the
`km ≤ 8` branch.
-/
def estimateTravelMinutesWith (hav : Coord → Coord → ℚ) (a b : Coord) : ℚ :=
  if a.lat = b.lat ∧ a.lng = b.lng then 0
  else
    let km := hav a b
    let speed : ℚ := if km ≤ 1 then 25 else if km ≤ 8 then 25
                     else if km ≤ 20 then 35 else 65
    max 5 (km / speed * 60)

/--
`get_cached_travel_data`: identical coordinates short-circuit to `(0, 0)`;
otherwise the cache is consulted under the canonical key.  A hit with a
non-null `minutes` yields `(max 5 minutes, distance)` where the distance
is the cached one when present, else haversine × 1.3.  A miss, a hit with
null `minutes`, and a provider exception all fall back to the estimate
(the exception branch behaves exactly like a miss, so the abstract
`cache` function covers it with `none`).
-/
def get_cached_travel_data (hav : Coord → Coord → ℚ)
    (cache : ℚ × ℚ × ℚ × ℚ → Option CacheRow) (a b : Coord) : ℚ × ℚ :=
  if a.lat = b.lat ∧ a.lng = b.lng then (0, 0)
  else
    let fallback : ℚ × ℚ :=
      (estimateTravelMinutesWith hav a b, hav a b * (13/10))
    match cache (make_cache_key a b) with
    | none => fallback
    | some row =>
      match row.minutes with
      | none => fallback
      | some m =>
        let km := match row.distance_km with
          | some k => k
          | none => hav a b * (13/10)
        (max 5 m, km)

/-- `get_cached_travel_time`: first component of the provider pair. -/
def get_cached_travel_time (hav : Coord → Coord → ℚ)
    (cache : ℚ × ℚ × ℚ × ℚ → Option CacheRow) (a b : Coord) : ℚ :=
  (get_cached_travel_data hav cache a b).1

/-- `get_cached_distance_km`: second component of the provider pair. -/
def get_cached_distance_km (hav : Coord → Coord → ℚ)
    (cache : ℚ × ℚ × ℚ × ℚ → Option CacheRow) (a b : Coord) : ℚ :=
  (get_cached_travel_data hav cache a b).2

/-! ### The real-valued haversine estimate (`haversine_km`,
`estimate_travel_minutes` over ℝ, for the formula-level claim) -/

/-- `math.radians`. -/
noncomputable def radians (x : ℝ) : ℝ := x * Real.pi / 180

/-- `haversine_km`: great-circle distance, Earth radius 6371 km. -/
noncomputable def haversine_km (lat1 lng1 lat2 lng2 : ℝ) : ℝ :=
  let dlat := radians (lat2 - lat1)
  let dlng := radians (lng2 - lng1)
  let a := Real.sin (dlat/2) ^ 2 +
    Real.cos (radians lat1) * Real.cos (radians lat2) * Real.sin (dlng/2) ^ 2
  let c := 2 * Real.arcsin (Real.sqrt a)
  6371.0 * c

/-- `estimate_travel_minutes` from the source: speed tiers over the
haversine distance, with a 5-minute floor for distinct coordinates. -/
noncomputable def estimate_travel_minutes (lat1 lng1 lat2 lng2 : ℝ) : ℝ :=
  if lat1 = lat2 ∧ lng1 = lng2 then 0
  else
    let km := haversine_km lat1 lng1 lat2 lng2
    let speed_kmh : ℝ := if km ≤ 1 then 25 else if km ≤ 8 then 25
                         else if km ≤ 20 then 35 else 65
    max 5 (km / speed_kmh * 60)

/-! ### TSP solver -/

/--
Total length of the path `prev → x₁ → … → xₙ → home`, the running
`total_km` of `solve_tsp_bruteforce`: a home→first leg, the inter-stop
legs, and the closing last→home leg.
-/
def pathBackKm (D : Coord → Coord → ℚ) (home : Coord) : Coord → List Coord → ℚ
  | prev, [] => D prev home
  | prev, c :: cs => D prev c + pathBackKm D home c cs

/-- Full tour distance `home → stops … → home` of one permutation. -/
def tourKm (D : Coord → Coord → ℚ) (home : Coord) (cs : List Coord) : ℚ :=
  pathBackKm D home home cs

/--
The scan over candidate permutations: `best_distance` starts at `inf` and
a candidate replaces the incumbent only when strictly shorter, so the
first minimum encountered wins.  `none` models the initial infinity.
-/
def tspStep (D : Coord → Coord → ℚ) (home : Coord) {α : Type}
    (best : Option (List α × ℚ)) (perm : List (Coord × α)) :
    Option (List α × ℚ) :=
  let d := tourKm D home (perm.map Prod.fst)
  match best with
  | none => some (perm.map Prod.snd, d)
  | some b => if d < b.2 then some (perm.map Prod.snd, d) else some b

def tspScan (D : Coord → Coord → ℚ) (home : Coord) {α : Type}
    (perms : List (List (Coord × α))) : Option (List α × ℚ) :=
  perms.foldl (tspStep D home) none

/--
`solve_tsp_bruteforce`.  The source permutes the index list of two
parallel arrays (`stop_coords`, `stop_ids`); the embedding permutes the
zipped list, carrying an arbitrary payload `α` in place of the ids (the
orchestrator passes whole inspections, modelling its id→inspection
lookup).
-/
def solve_tsp_bruteforce (D : Coord → Coord → ℚ) (home : Coord) {α : Type} :
    List (Coord × α) → List α × ℚ
  | [] => ([], 0)
  | [s] => ([s.2], D home s.1 + D s.1 home)
  | s :: s' :: rest =>
    (tspScan D home ((s :: s' :: rest).permutations')).getD ([], 0)

/-- One step of the nearest-neighbour scan: the not-yet-visited stop with
the strictly smallest distance from the current position, first wins. -/
def nearestOf (D : Coord → Coord → ℚ) {α : Type} (cur : Coord)
    (remaining : List (Coord × α)) : Option ((Coord × α) × ℚ) :=
  remaining.foldl
    (fun best s =>
      let dist := D cur s.1
      match best with
      | none => some (s, dist)
      | some b => if dist < b.2 then some (s, dist) else some b)
    none

/-- The nearest-neighbour loop; the fuel is the length of `remaining`
(each iteration removes the chosen stop, so it never runs out early). -/
def nnAux (D : Coord → Coord → ℚ) (home : Coord) {α : Type} [DecidableEq α]
    [DecidableEq (Coord × α)] :
    ℕ → Coord → List (Coord × α) → List α × ℚ
  | 0, cur, _ => ([], D cur home)
  | n + 1, cur, remaining =>
    match nearestOf D cur remaining with
    | none => ([], D cur home)
    | some (s, dist) =>
      let (ids, km) := nnAux D home n s.1 (remaining.erase s)
      (s.2 :: ids, dist + km)

/-- `solve_tsp_nearest_neighbor`. -/
def solve_tsp_nearest_neighbor (D : Coord → Coord → ℚ) (home : Coord)
    {α : Type} [DecidableEq α] (stops : List (Coord × α)) : List α × ℚ :=
  match stops with
  | [] => ([], 0)
  | _ => nnAux D home stops.length home stops

/-- `solve_tsp`: brute force up to 7 stops, nearest neighbour above. -/
def solve_tsp (D : Coord → Coord → ℚ) (home : Coord) {α : Type}
    [DecidableEq α] (stops : List (Coord × α)) : List α × ℚ :=
  if stops.length ≤ 7 then solve_tsp_bruteforce D home stops
  else solve_tsp_nearest_neighbor D home stops

/-! ### Data model of the scheduling layer

Scheduled times are stored as `HH:MM[:SS]` strings in the source and read
through `time_str_to_minutes`; the embedding keeps them directly as
minutes from midnight (the parse is injective on well-formed time
strings, and the `[:5]` display truncation preserves the minute value). -/

/-- One inspection row from `monday_items_selected`, after
`fetch_monday_items` (coordinates present, duration resolved). -/
structure Inspection where
  id : ℤ
  address : String
  inspection_type : String
  rooms : ℤ
  coord : Coord
  durationMinutes : ℤ
  scheduledStartMin : ℤ
  scheduledEndMin : ℤ
deriving DecidableEq, Repr

/-- An inspector as produced by `fetch_inspector_data`. -/
structure Inspector where
  id : String
  full_name : String
  homeCoord : Coord
  availableStartMin : ℤ
deriving DecidableEq, Repr

/-- One stop dict of a built route. -/
structure Stop where
  sequence : ℕ
  monday_item_id : ℤ
  address : String
  inspection_type : String
  rooms : ℤ
  startMin : ℤ
  endMin : ℤ
  durationMinutes : ℤ
  travel_from_previous_mins : ℤ
  distance_from_previous_km : ℚ
  is_existing : Bool
deriving DecidableEq, Repr

/-- The stable sort by scheduled start time
(`existing_inspections.sort(key=...)`; Python's sort is stable, as is
insertion sort). -/
def sortByScheduledStart (l : List Inspection) : List Inspection :=
  List.insertionSort (fun a b => a.scheduledStartMin ≤ b.scheduledStartMin) l

/-! ### `build_existing_only_route` -/

/-- The emission loop of `build_existing_only_route`: walks the sorted
existing inspections accumulating leg distances; travel time is 0 for
`seq == 1` and `int(round(get_cached_travel_time(prev, cur)))` after. -/
def existingOnlyAux (T D : Coord → Coord → ℚ) :
    Coord → ℕ → List Inspection → List Stop × ℚ
  | _, _, [] => ([], 0)
  | prev, seq, ins :: rest =>
    let legKm := D prev ins.coord
    let travel : ℤ := if seq = 1 then 0 else pythonRound (T prev ins.coord)
    let stop : Stop :=
      { sequence := seq, monday_item_id := ins.id, address := ins.address,
        inspection_type := ins.inspection_type, rooms := ins.rooms,
        startMin := ins.scheduledStartMin, endMin := ins.scheduledEndMin,
        durationMinutes := ins.durationMinutes,
        travel_from_previous_mins := travel,
        distance_from_previous_km := round1 legKm,
        is_existing := true }
    let rec_ := existingOnlyAux T D ins.coord (seq + 1) rest
    (stop :: rec_.1, legKm + rec_.2)

/-- `build_existing_only_route`: sort by scheduled start, emit with
recomputed leg figures, and add the return-home distance. -/
def build_existing_only_route (T D : Coord → Coord → ℚ)
    (_inspector : Inspector) (existing : List Inspection) (home : Coord) :
    List Stop × ℚ :=
  let sorted := sortByScheduledStart existing
  let res := existingOnlyAux T D home 1 sorted
  let returnKm := match sorted.getLast? with
    | some last => D last.coord home
    | none => 0
  (res.1, res.2 + returnKm)

/-! ### `schedule_new_only_route` -/

/-- The scheduling loop of `schedule_new_only_route` over the
TSP-ordered inspections.  `current` is the running clock in minutes;
each stop start is rounded via `round_to_nearest_5_min` on the datetime
(`roundedStartMin`), and the displayed end time wraps at midnight
(`strftime`). -/
def newStopsAux (T D : Coord → Coord → ℚ) :
    List Inspection → ℤ → Coord → ℕ → List Stop
  | [], _, _, _ => []
  | ins :: rest, current, prev, seq =>
    let travel : ℤ := if seq = 1 then 0 else pythonRound (T prev ins.coord)
    let legKm := D prev ins.coord
    let cur1 := if seq = 1 then current
                else current + pythonRound (T prev ins.coord)
    let start := roundedStartMin cur1
    let endRaw := start + ins.durationMinutes
    { sequence := seq, monday_item_id := ins.id, address := ins.address,
      inspection_type := ins.inspection_type, rooms := ins.rooms,
      startMin := start, endMin := clockWrap endRaw,
      durationMinutes := ins.durationMinutes,
      travel_from_previous_mins := travel,
      distance_from_previous_km := round1 legKm,
      is_existing := false }
      :: newStopsAux T D rest endRaw ins.coord (seq + 1)

/-- The visiting order `solve_tsp` produces for the new inspections
(modelling the `inspection_by_id` lookup by carrying inspections as the
TSP payload). -/
def newRouteOrder (D : Coord → Coord → ℚ) (home : Coord)
    (new : List Inspection) : List Inspection :=
  (solve_tsp D home (new.map (fun i => (i.coord, i)))).1

/-- Day-boundary guard for the single-window schedule: true iff no
rounded start and no end time of the run crosses midnight, so that no
`timedelta.seconds`/`strftime` wrap-around occurs.  Mirrors the state
evolution of `newStopsAux` exactly. -/
def newSchedOk (T : Coord → Coord → ℚ) :
    List Inspection → ℤ → Coord → ℕ → Bool
  | [], _, _, _ => true
  | ins :: rest, current, prev, seq =>
    let cur1 := if seq = 1 then current
                else current + pythonRound (T prev ins.coord)
    let endRaw := roundedStartMin cur1 + ins.durationMinutes
    (decide (roundUp5 cur1 < 1440) && decide (endRaw < 1440)) &&
      newSchedOk T rest endRaw ins.coord (seq + 1)

/-- `schedule_new_only_route`: TSP order, then timed emission starting at
the inspector's available time; the returned distance is the TSP tour
total. -/
def schedule_new_only_route (T D : Coord → Coord → ℚ)
    (inspector : Inspector) (new : List Inspection) (home : Coord) :
    List Stop × ℚ :=
  let res := solve_tsp D home (new.map (fun i => (i.coord, i)))
  (newStopsAux T D res.1 inspector.availableStartMin home 1, res.2)

/-! ### `schedule_mixed_route` -/

/-- One entry of the `existing_slots` timeline. -/
structure Slot where
  inspection : Inspection
  startMin : ℤ
  endMin : ℤ
  coords : Coord
deriving DecidableEq, Repr

/-- `existing_slots` built from the sorted existing inspections. -/
def slotsOf (sorted : List Inspection) : List Slot :=
  sorted.map (fun ins =>
    ⟨ins, ins.scheduledStartMin, ins.scheduledEndMin, ins.coord⟩)

/-- A free interval of the day with its bounding coordinates. -/
structure Gap where
  startMin : ℤ
  endMin : ℤ
  prevCoords : Coord
  nextCoords : Coord
deriving DecidableEq, Repr

/-- The `for i in range(len(existing_slots) - 1)` loop: a gap between two
consecutive locked slots is kept only when `gap_end > gap_start + 15`. -/
def betweenGaps : List Slot → List Gap
  | a :: b :: rest =>
    (if a.endMin + 15 < b.startMin
     then [⟨a.endMin, b.startMin, a.coords, b.coords⟩] else [])
    ++ betweenGaps (b :: rest)
  | _ => []

/-- `day_end = 17 * 60`. -/
def day_end : ℤ := 17 * 60

/-- The full gap list: before-first, between-pairs, after-last; a single
whole-day gap when there are no locked slots. -/
def buildGaps (dayStart : ℤ) (home : Coord) : List Slot → List Gap
  | [] => [⟨dayStart, day_end, home, home⟩]
  | s :: rest =>
    let lastSlot := (s :: rest).getLast (List.cons_ne_nil s rest)
    (if dayStart < s.startMin
     then [⟨dayStart, s.startMin, home, s.coords⟩] else [])
    ++ betweenGaps (s :: rest)
    ++ (if lastSlot.endMin < day_end
        then [⟨lastSlot.endMin, day_end, lastSlot.coords, home⟩] else [])

/-- A flexible inspection placed into a gap (`assigned_new` entry).
`startMin` is the rounded, wrapped display value that also serves as the
merge key; `endMin` is `startMin + duration` (the running-clock value;
display wraps it). -/
structure Assigned where
  inspection : Inspection
  startMin : ℤ
  endMin : ℤ
  travelMin : ℤ
deriving DecidableEq, Repr

/-- The inner candidate scan of the gap loop: among the remaining
inspections, the feasible one (`current + travel_to + duration ≤
gap.end`, unrounded) with the strictly smallest detour score
`travel_to + travel_out`; first minimum wins. -/
def findBestStep (T : Coord → Coord → ℚ) (gap : Gap) (current : ℤ)
    (prev : Coord) (best : Option (Inspection × ℚ)) (ins : Inspection) :
    Option (Inspection × ℚ) :=
  let travelTo := T prev ins.coord
  let travelOut := T ins.coord gap.nextCoords
  if (current : ℚ) + travelTo + (ins.durationMinutes : ℚ) ≤
      (gap.endMin : ℚ) then
    let score := travelTo + travelOut
    match best with
    | none => some (ins, score)
    | some b => if score < b.2 then some (ins, score) else some b
  else best

def findBest (T : Coord → Coord → ℚ) (gap : Gap) (current : ℤ)
    (prev : Coord) (remaining : List Inspection) : Option (Inspection × ℚ) :=
  remaining.foldl (findBestStep T gap current prev) none

/-- The `while remaining_new and current_min < gap['end_min']` loop for
one gap.  The fuel is the length of the remaining list: each placement
removes one inspection, so the loop can never be cut short by fuel. -/
def fillGapAux (T : Coord → Coord → ℚ) (gap : Gap) :
    ℕ → List Inspection → ℤ → Coord → List Assigned × List Inspection
  | 0, remaining, _, _ => ([], remaining)
  | n + 1, remaining, current, prev =>
    if remaining ≠ [] ∧ current < gap.endMin then
      match findBest T gap current prev remaining with
      | none => ([], remaining)
      | some (best, _) =>
        let travelMin := pythonRound (T prev best.coord)
        let cur1 := current + travelMin
        let start := roundedStartMin cur1
        let endMin := start + best.durationMinutes
        let a : Assigned := ⟨best, start, endMin, travelMin⟩
        let res := fillGapAux T gap n (remaining.erase best) endMin best.coord
        (a :: res.1, res.2)
    else ([], remaining)

/-- The outer gap loop, threading the remaining flexible inspections. -/
def fillGaps (T : Coord → Coord → ℚ) (gaps : List Gap)
    (new : List Inspection) : List Assigned × List Inspection :=
  gaps.foldl
    (fun acc gap =>
      let res :=
        fillGapAux T gap acc.2.length acc.2 gap.startMin gap.prevCoords
      (acc.1 ++ res.1, res.2))
    ([], new)

/-- One entry of the merged `all_stops` list (existing slots first, then
assigned new ones, later stably sorted by `start_min`). -/
structure PreStop where
  sortKey : ℤ
  inspection : Inspection
  startMin : ℤ
  endMin : ℤ
  travelMin : ℤ
  is_existing : Bool
deriving DecidableEq, Repr

/-- Merge of locked and placed stops before the final sort.  Existing
entries carry no `travel_min` key; the final loop's
`stop.get('travel_min', 0)` default is modelled by storing 0 (never read
for existing entries). -/
def preStopsOf (slots : List Slot) (assigned : List Assigned) :
    List PreStop :=
  slots.map (fun s =>
    ⟨s.startMin, s.inspection, s.inspection.scheduledStartMin,
      s.inspection.scheduledEndMin, 0, true⟩)
  ++ assigned.map (fun a =>
    ⟨a.startMin, a.inspection, a.startMin, clockWrap a.endMin,
      a.travelMin, false⟩)

/-- The final emission loop of `schedule_mixed_route`: distances always
recomputed from the predecessor; travel time 0 for the first stop,
recomputed for locked stops, carried over for placed ones. -/
def mixedFinalAux (T D : Coord → Coord → ℚ) :
    Coord → ℕ → List PreStop → List Stop × ℚ
  | _, _, [] => ([], 0)
  | prev, seq, p :: rest =>
    let c := p.inspection.coord
    let legKm := D prev c
    let travel : ℤ :=
      if seq = 1 then 0
      else if p.is_existing then pythonRound (T prev c)
      else p.travelMin
    let stop : Stop :=
      { sequence := seq, monday_item_id := p.inspection.id,
        address := p.inspection.address,
        inspection_type := p.inspection.inspection_type,
        rooms := p.inspection.rooms,
        startMin := p.startMin, endMin := p.endMin,
        durationMinutes := p.inspection.durationMinutes,
        travel_from_previous_mins := travel,
        distance_from_previous_km := round1 legKm,
        is_existing := p.is_existing }
    let rec_ := mixedFinalAux T D c (seq + 1) rest
    (stop :: rec_.1, legKm + rec_.2)

/-- `schedule_mixed_route`: locked slots keep their times, flexible
inspections are greedily placed into the gaps, everything is merged,
stably re-sorted by start, and emitted with recomputed leg figures plus
the return-home distance.  Unplaced inspections are only logged by the
source; the route excludes them. -/
def schedule_mixed_route (T D : Coord → Coord → ℚ) (inspector : Inspector)
    (existing new : List Inspection) (home : Coord) : List Stop × ℚ :=
  let sorted := sortByScheduledStart existing
  let slots := slotsOf sorted
  let gaps := buildGaps inspector.availableStartMin home slots
  let assigned := (fillGaps T gaps new).1
  let allPre := List.insertionSort (fun a b => a.sortKey ≤ b.sortKey)
    (preStopsOf slots assigned)
  let res := mixedFinalAux T D home 1 allPre
  let returnKm := match allPre.getLast? with
    | some p => D p.inspection.coord home
    | none => 0
  (res.1, res.2 + returnKm)

/-! ### `optimize_inspector_routes` -/

/-- One incoming assignment dict.  `inspector_id` is `none` when the key
is missing; an element `none` of `inspection_ids` models a value that
`int(...)` rejects. -/
structure AssignmentIn where
  inspector_id : Option String
  inspection_ids : List (Option ℤ)
  existing_ids : List ℤ
deriving DecidableEq, Repr

/-- The `[int(id) for id in inspection_ids]` conversion: fails as a whole
if any element fails. -/
def allInts : List (Option ℤ) → Option (List ℤ)
  | [] => some []
  | none :: _ => none
  | some n :: rest => (allInts rest).map (n :: ·)

/-- The per-route summary dict. -/
structure RouteSummary where
  inspector_id : String
  inspector_name : String
  total_inspections : ℕ
  existing_count : ℕ
  new_count : ℕ
  total_km : ℚ
  total_travel_minutes : ℤ
  startTime : Option ℤ
  endTime : Option ℤ
  stops : List Stop
deriving DecidableEq, Repr

/-- What one iteration of the per-assignment loop contributes: an error
string and `continue`, a silent `continue`, or a route (with the
unrounded route km kept for the fleet total). -/
inductive Outcome where
  | err (msg : String)
  | skip
  | route (summary : RouteSummary) (rawKm : ℚ)
deriving DecidableEq, Repr

/-- The body of the per-assignment loop, with the worker-directory and
task-directory lookups as oracles (`fetch_inspector_data` returns `none`
for a missing inspector or missing home coordinates;
`fetch_monday_items` returns only rows that have coordinates). -/
def processAssignment (T D : Coord → Coord → ℚ)
    (fetchInspector : String → Option Inspector)
    (fetchItems : List ℤ → List Inspection) (a : AssignmentIn) : Outcome :=
  match a.inspector_id with
  | none => .err "Missing inspector_id in assignment"
  | some iid =>
    if iid = "" then .err "Missing inspector_id in assignment"
    else if a.inspection_ids = [] then .skip
    else
      match allInts a.inspection_ids with
      | none => .err "Invalid inspection_ids format"
      | some ids =>
        match fetchInspector iid with
        | none => .err ("Inspector " ++ iid ++ " not found or missing coordinates")
        | some inspector =>
          let inspections := fetchItems ids
          if inspections = [] then
            .err ("No valid inspections found for " ++ inspector.full_name)
          else
            let existing := inspections.filter
              (fun i => a.existing_ids.contains i.id)
            let newIns := inspections.filter
              (fun i => !(a.existing_ids.contains i.id))
            let home := inspector.homeCoord
            let res :=
              if existing ≠ [] ∧ newIns ≠ [] then
                schedule_mixed_route T D inspector existing newIns home
              else if existing ≠ [] then
                build_existing_only_route T D inspector existing home
              else
                schedule_new_only_route T D inspector newIns home
            let stops := res.1
            let routeKm := res.2
            .route
              { inspector_id := iid, inspector_name := inspector.full_name,
                total_inspections := stops.length,
                existing_count := existing.length,
                new_count := newIns.length,
                total_km := round1 routeKm,
                total_travel_minutes :=
                  (stops.map Stop.travel_from_previous_mins).sum,
                startTime := stops.head?.map Stop.startMin,
                endTime := stops.getLast?.map Stop.endMin,
                stops := stops }
              routeKm

/-- The running accumulators of the batch loop. -/
structure OptAcc where
  routes : List RouteSummary
  errors : List String
  total_km : ℚ
  total_travel_minutes : ℤ
  total_scheduled : ℕ
deriving Repr

/-- One iteration of the batch loop: errors append and continue, skips
leave everything unchanged, routes append and bump all totals. -/
def optStep (T D : Coord → Coord → ℚ)
    (fetchInspector : String → Option Inspector)
    (fetchItems : List ℤ → List Inspection)
    (acc : OptAcc) (a : AssignmentIn) : OptAcc :=
  match processAssignment T D fetchInspector fetchItems a with
  | .err e => { acc with errors := acc.errors ++ [e] }
  | .skip => acc
  | .route r rawKm =>
    { routes := acc.routes ++ [r], errors := acc.errors,
      total_km := acc.total_km + rawKm,
      total_travel_minutes := acc.total_travel_minutes +
        (r.stops.map Stop.travel_from_previous_mins).sum,
      total_scheduled := acc.total_scheduled + r.stops.length }

/-- The metrics dict (`execution_seconds`, a wall-clock measurement, is
not modelled). -/
structure Metrics where
  total_scheduled : ℕ
  total_inspectors : ℕ
  total_travel_km : ℚ
  total_travel_minutes : ℤ
deriving DecidableEq, Repr

/-- The result dict of `optimize_inspector_routes`. -/
structure OptimizeResult where
  status : String
  routes : List RouteSummary
  metrics : Metrics
  errors : Option (List String)
deriving Repr

/-- `optimize_inspector_routes`: fold the per-assignment loop, then
assemble status, metrics and the nullable error list. -/
def optimize_inspector_routes (T D : Coord → Coord → ℚ)
    (fetchInspector : String → Option Inspector)
    (fetchItems : List ℤ → List Inspection)
    (assignments : List AssignmentIn) : OptimizeResult :=
  let acc := assignments.foldl (optStep T D fetchInspector fetchItems)
    ⟨[], [], 0, 0, 0⟩
  { status := if acc.errors = [] then "success" else "partial",
    routes := acc.routes,
    metrics :=
      { total_scheduled := acc.total_scheduled,
        total_inspectors := acc.routes.length,
        total_travel_km := round1 acc.total_km,
        total_travel_minutes := acc.total_travel_minutes },
    errors := if acc.errors = [] then none else some acc.errors }

/-! ### Route-chain predicate (the spec's round-trip closure) -/

/-- Non-decreasing time chain over a stop list: each stop starts no later
than it ends and ends no later than the next stop starts. -/
def stopsChainOk : List Stop → Bool
  | [] => true
  | [s] => decide (s.startMin ≤ s.endMin)
  | s :: s' :: rest =>
    (decide (s.startMin ≤ s.endMin) && decide (s.endMin ≤ s'.startMin)) &&
      stopsChainOk (s' :: rest)

/-! ## Claim C7 — the 5-minute rounding function -/

theorem round5_mono (t : ℤ) : t ≤ round_to_nearest_5_min t := by
  unfold round_to_nearest_5_min; split_ifs with h <;> omega

theorem round5_boundary (t : ℤ) :
    (round_to_nearest_5_min t) % 300000000 = 0 := by
  unfold round_to_nearest_5_min; split_ifs with h <;> omega

theorem round5_fixed {t : ℤ} (h : t % 300000000 = 0) :
    round_to_nearest_5_min t = t := by
  unfold round_to_nearest_5_min; simp [h]

/--
C7: `round_to_nearest_5_min` never moves a datetime earlier, always lands
on a 5-minute boundary with zero seconds and microseconds (the time in
microseconds is a multiple of 300 000 000), is the identity on inputs
already on such a boundary, and is therefore idempotent.
-/
theorem claim_C7_rounding (t : ℤ) :
    t ≤ round_to_nearest_5_min t ∧
    (round_to_nearest_5_min t) % 300000000 = 0 ∧
    (t % 300000000 = 0 → round_to_nearest_5_min t = t) ∧
    round_to_nearest_5_min (round_to_nearest_5_min t) =
      round_to_nearest_5_min t :=
  ⟨round5_mono t, round5_boundary t, fun h => round5_fixed h,
   round5_fixed (round5_boundary t)⟩

/-- Witness for C7 at 10:00:00 (600 000 000 µs): already on a boundary,
so rounding is a no-op. -/
theorem claim_C7_rounding_witness :
    round_to_nearest_5_min 600000000 = 600000000 :=
  (claim_C7_rounding 600000000).2.2.1 (by decide)

/-! ## Claim C8 — the estimate fallback formula -/

/--
C8: for distinct coordinates the estimate is the haversine distance
divided by the claimed speed tier (≤ 8 km → 25 km/h, ≤ 20 km → 35 km/h,
else 65 km/h — the source's extra `km ≤ 1` branch also assigns 25),
converted to minutes and floored at 5, hence always at least 5 minutes;
for identical coordinates it is 0.
-/
theorem claim_C8_estimate (lat1 lng1 lat2 lng2 : ℝ)
    (h : ¬(lat1 = lat2 ∧ lng1 = lng2)) :
    estimate_travel_minutes lat1 lng1 lat2 lng2 =
      max 5 (haversine_km lat1 lng1 lat2 lng2 /
        (if haversine_km lat1 lng1 lat2 lng2 ≤ 8 then 25
         else if haversine_km lat1 lng1 lat2 lng2 ≤ 20 then 35 else 65)
        * 60) ∧
    5 ≤ estimate_travel_minutes lat1 lng1 lat2 lng2 ∧
    (∀ la ln : ℝ, estimate_travel_minutes la ln la ln = 0) := by
  have hident : ∀ la ln : ℝ, estimate_travel_minutes la ln la ln = 0 := by
    intro la ln
    unfold estimate_travel_minutes
    simp
  have heq : estimate_travel_minutes lat1 lng1 lat2 lng2 =
      max 5 (haversine_km lat1 lng1 lat2 lng2 /
        (if haversine_km lat1 lng1 lat2 lng2 ≤ 8 then 25
         else if haversine_km lat1 lng1 lat2 lng2 ≤ 20 then 35 else 65)
        * 60) := by
    unfold estimate_travel_minutes
    rw [if_neg h]
    dsimp only
    split_ifs with h1 h2 h3 <;> first | rfl | linarith
  exact ⟨heq, heq ▸ le_max_left 5 _, hident⟩

/-- Witness for C8 at the distinct pair (0,0) vs (1,0). -/
theorem claim_C8_estimate_witness :
    estimate_travel_minutes 0 0 1 0 =
      max 5 (haversine_km 0 0 1 0 /
        (if haversine_km 0 0 1 0 ≤ 8 then 25
         else if haversine_km 0 0 1 0 ≤ 20 then 35 else 65) * 60) ∧
    5 ≤ estimate_travel_minutes 0 0 1 0 ∧
    (∀ la ln : ℝ, estimate_travel_minutes la ln la ln = 0) :=
  claim_C8_estimate 0 0 1 0 (by simp)

/-! ## Claim C5 — cache hits of the travel-metric provider (corrected:
the cached duration is floored at 5 minutes, not returned unchanged) -/

/--
Counterexample to C5 as stated: a cache row with `minutes = 3` for a
distinct coordinate pair.  `get_cached_travel_data` returns
`max(5.0, cached_minutes) = 5`, not the cached duration 3.
-/
theorem claim_C5_counterexample :
    (get_cached_travel_data (fun _ _ => 1)
        (fun _ => some ⟨some 3, some 2⟩) ⟨0, 0⟩ ⟨1, 1⟩).1 = 5 ∧
    (5 : ℚ) ≠ 3 := by
  constructor
  · with_unfolding_all decide
  · with_unfolding_all decide

/--
C5 amended: on a cache hit with non-null minutes for distinct
coordinates, the provider returns the cached duration floored at
5 minutes (`max 5 minutes`), together with the cached distance when
present, else haversine × 1.3.
-/
theorem claim_C5_cached_hit (hav : Coord → Coord → ℚ)
    (cache : ℚ × ℚ × ℚ × ℚ → Option CacheRow) (a b : Coord)
    (hne : ¬(a.lat = b.lat ∧ a.lng = b.lng))
    (row : CacheRow) (hrow : cache (make_cache_key a b) = some row)
    (m : ℚ) (hm : row.minutes = some m) :
    get_cached_travel_data hav cache a b =
      (max 5 m, match row.distance_km with
        | some k => k
        | none => hav a b * (13/10)) := by
  unfold get_cached_travel_data
  rw [if_neg hne, hrow]
  dsimp only
  rw [hm]

/-- Witness for the amended C5: minutes 7 cached, no distance cached. -/
theorem claim_C5_cached_hit_witness :
    get_cached_travel_data (fun _ _ => 1)
        (fun _ => some ⟨some 7, none⟩) ⟨0, 0⟩ ⟨1, 1⟩ =
      (max 5 7, 1 * (13/10)) :=
  claim_C5_cached_hit (fun _ _ => 1) (fun _ => some ⟨some 7, none⟩)
    ⟨0, 0⟩ ⟨1, 1⟩ (by decide) ⟨some 7, none⟩ rfl 7 rfl

/-! ## Claim C6 — the 15-minute gap threshold -/

theorem betweenGaps_zip (slots : List Slot) :
    betweenGaps slots =
      (slots.zip slots.tail).filterMap
        (fun p => if 15 < p.2.startMin - p.1.endMin
          then some ⟨p.1.endMin, p.2.startMin, p.1.coords, p.2.coords⟩
          else none) := by
  induction slots with
  | nil => rfl
  | cons a rest ih =>
    cases rest with
    | nil => rfl
    | cons b rest' =>
      rw [betweenGaps, ih]
      simp only [List.tail_cons, List.zip_cons_cons, List.filterMap_cons]
      by_cases h : a.endMin + 15 < b.startMin
      · rw [if_pos h, if_pos (by omega)]
        rfl
      · rw [if_neg h, if_neg (by omega)]
        rfl

/--
C6: in the mixed scheduler's gap construction, a gap between two
consecutive locked slots is emitted exactly when its duration strictly
exceeds 15 minutes; in particular a 15-minute gap is discarded and a
16-minute gap is kept.  The between-pair gaps sit inside every gap list
the scheduler builds when locked slots exist.
-/
theorem claim_C6_gap_threshold (slots : List Slot) :
    (betweenGaps slots =
      (slots.zip slots.tail).filterMap
        (fun p => if 15 < p.2.startMin - p.1.endMin
          then some ⟨p.1.endMin, p.2.startMin, p.1.coords, p.2.coords⟩
          else none)) ∧
    (∀ a b : Slot, b.startMin - a.endMin = 15 → betweenGaps [a, b] = []) ∧
    (∀ a b : Slot, 16 ≤ b.startMin - a.endMin →
      betweenGaps [a, b] = [⟨a.endMin, b.startMin, a.coords, b.coords⟩]) ∧
    (∀ (dayStart : ℤ) (home : Coord) (s : Slot) (rest : List Slot),
      ∃ pre post, buildGaps dayStart home (s :: rest) =
        pre ++ betweenGaps (s :: rest) ++ post) := by
  refine ⟨betweenGaps_zip slots, ?_, ?_, ?_⟩
  · intro a b h
    have hc : ¬ (a.endMin + 15 < b.startMin) := by omega
    simp [betweenGaps, hc]
  · intro a b h
    have hc : a.endMin + 15 < b.startMin := by omega
    simp [betweenGaps, hc]
  · intro dayStart home s rest
    exact ⟨_, _, rfl⟩

/-- Witness for C6: a 16-minute gap between two locked slots is kept. -/
theorem claim_C6_gap_threshold_witness :
    betweenGaps
      [⟨⟨1, "", "", 3, ⟨0, 0⟩, 60, 540, 600⟩, 540, 600, ⟨0, 0⟩⟩,
       ⟨⟨2, "", "", 3, ⟨1, 1⟩, 60, 616, 676⟩, 616, 676, ⟨1, 1⟩⟩] =
      [⟨600, 616, ⟨0, 0⟩, ⟨1, 1⟩⟩] :=
  (claim_C6_gap_threshold []).2.2.1
    ⟨⟨1, "", "", 3, ⟨0, 0⟩, 60, 540, 600⟩, 540, 600, ⟨0, 0⟩⟩
    ⟨⟨2, "", "", 3, ⟨1, 1⟩, 60, 616, 676⟩, 616, 676, ⟨1, 1⟩⟩
    (by decide)

/-! ## Claim C3 — status aggregation and the skip-and-record policy -/

/-- The route (if any) that one assignment contributes. -/
def routeOf (T D : Coord → Coord → ℚ)
    (fetchInspector : String → Option Inspector)
    (fetchItems : List ℤ → List Inspection) (a : AssignmentIn) :
    Option RouteSummary :=
  match processAssignment T D fetchInspector fetchItems a with
  | .route r _ => some r
  | _ => none

/-- The error string (if any) that one assignment contributes. -/
def errorOf (T D : Coord → Coord → ℚ)
    (fetchInspector : String → Option Inspector)
    (fetchItems : List ℤ → List Inspection) (a : AssignmentIn) :
    Option String :=
  match processAssignment T D fetchInspector fetchItems a with
  | .err e => some e
  | _ => none

theorem optFold_routes_errors (T D : Coord → Coord → ℚ)
    (fetchInspector : String → Option Inspector)
    (fetchItems : List ℤ → List Inspection) :
    ∀ (l : List AssignmentIn) (acc : OptAcc),
      (l.foldl (optStep T D fetchInspector fetchItems) acc).routes =
        acc.routes ++ l.filterMap (routeOf T D fetchInspector fetchItems) ∧
      (l.foldl (optStep T D fetchInspector fetchItems) acc).errors =
        acc.errors ++ l.filterMap (errorOf T D fetchInspector fetchItems) := by
  intro l
  induction l with
  | nil => intro acc; simp
  | cons a rest ih =>
    intro acc
    obtain ⟨ihr, ihe⟩ := ih (optStep T D fetchInspector fetchItems acc a)
    simp only [List.foldl_cons, List.filterMap_cons]
    rw [ihr, ihe]
    unfold optStep routeOf errorOf
    cases h : processAssignment T D fetchInspector fetchItems a <;>
      simp [h]

/--
C3: `optimize_inspector_routes` reports `"success"` exactly when the
accumulated per-worker error list is empty and `"partial"` whenever any
error occurred (in particular whenever an error occurred while a route
was still produced); errors never abort the batch — the routes and
errors of the whole batch are exactly the per-assignment contributions,
each assignment processed independently.
-/
theorem claim_C3_status_aggregation (T D : Coord → Coord → ℚ)
    (fetchInspector : String → Option Inspector)
    (fetchItems : List ℤ → List Inspection)
    (assignments : List AssignmentIn) :
    ((optimize_inspector_routes T D fetchInspector fetchItems
        assignments).status = "success" ↔
      (optimize_inspector_routes T D fetchInspector fetchItems
        assignments).errors = none) ∧
    ((optimize_inspector_routes T D fetchInspector fetchItems
        assignments).errors ≠ none →
      (optimize_inspector_routes T D fetchInspector fetchItems
        assignments).status = "partial") ∧
    (optimize_inspector_routes T D fetchInspector fetchItems
        assignments).routes =
      assignments.filterMap (routeOf T D fetchInspector fetchItems) ∧
    (optimize_inspector_routes T D fetchInspector fetchItems
        assignments).errors =
      (if assignments.filterMap (errorOf T D fetchInspector fetchItems) = []
       then none
       else some (assignments.filterMap
         (errorOf T D fetchInspector fetchItems))) := by
  obtain ⟨hr, he⟩ := optFold_routes_errors T D fetchInspector fetchItems
    assignments ⟨[], [], 0, 0, 0⟩
  unfold optimize_inspector_routes
  simp only [] at hr he ⊢
  rw [hr, he]
  simp only [List.nil_append]
  by_cases hz : assignments.filterMap
      (errorOf T D fetchInspector fetchItems) = []
  · simp [hz]
  · simp [hz]

/-- Witness for C3: a one-assignment batch whose assignment lacks an
inspector id yields an error and hence a `"partial"` status. -/
theorem claim_C3_status_aggregation_witness :
    (optimize_inspector_routes (fun _ _ => 1) (fun _ _ => 1)
        (fun _ => none) (fun _ => [])
        [⟨none, [some 1], []⟩]).status = "partial" :=
  (claim_C3_status_aggregation (fun _ _ => 1) (fun _ _ => 1)
      (fun _ => none) (fun _ => []) [⟨none, [some 1], []⟩]).2.1
    (by with_unfolding_all decide)

/-! ## Claim C10 — assignments with a worker but no task ids -/

/--
C10: an assignment that has a (non-empty) inspector id but an empty
`inspection_ids` list is silently skipped: no error string is recorded,
no route is produced, and the whole batch result is unchanged by the
assignment — so it can never flip a `"success"` status.
-/
theorem claim_C10_empty_ids_skip (T D : Coord → Coord → ℚ)
    (fetchInspector : String → Option Inspector)
    (fetchItems : List ℤ → List Inspection)
    (a : AssignmentIn) (rest : List AssignmentIn) (iid : String)
    (hid : a.inspector_id = some iid) (hne : iid ≠ "")
    (hempty : a.inspection_ids = []) :
    processAssignment T D fetchInspector fetchItems a = .skip ∧
    optimize_inspector_routes T D fetchInspector fetchItems (a :: rest) =
      optimize_inspector_routes T D fetchInspector fetchItems rest := by
  have hskip : processAssignment T D fetchInspector fetchItems a = .skip := by
    unfold processAssignment
    rw [hid]
    simp [hne, hempty]
  refine ⟨hskip, ?_⟩
  unfold optimize_inspector_routes
  rw [List.foldl_cons]
  have hstep : optStep T D fetchInspector fetchItems ⟨[], [], 0, 0, 0⟩ a =
      ⟨[], [], 0, 0, 0⟩ := by
    unfold optStep
    rw [hskip]
  rw [hstep]

/-- Witness for C10: a concrete worker with no inspections, prepended to
an empty batch. -/
theorem claim_C10_empty_ids_skip_witness :
    processAssignment (fun _ _ => 1) (fun _ _ => 1) (fun _ => none)
        (fun _ => []) ⟨some "w1", [], [42]⟩ = .skip ∧
    optimize_inspector_routes (fun _ _ => 1) (fun _ _ => 1) (fun _ => none)
        (fun _ => []) [⟨some "w1", [], [42]⟩] =
      optimize_inspector_routes (fun _ _ => 1) (fun _ _ => 1)
        (fun _ => none) (fun _ => []) [] :=
  claim_C10_empty_ids_skip (fun _ _ => 1) (fun _ _ => 1) (fun _ => none)
    (fun _ => []) ⟨some "w1", [], [42]⟩ [] "w1" rfl (by decide) rfl

/-! ## Claim C4 — brute-force TSP optimality for at most 7 stops -/

theorem tspStep_isSome (D : Coord → Coord → ℚ) (home : Coord) {α : Type}
    (acc : Option (List α × ℚ)) (perm : List (Coord × α)) :
    ∃ r, tspStep D home acc perm = some r := by
  unfold tspStep
  cases acc with
  | none => exact ⟨_, rfl⟩
  | some b =>
    dsimp only
    split_ifs <;> exact ⟨_, rfl⟩

theorem tspFold_isSome (D : Coord → Coord → ℚ) (home : Coord) {α : Type} :
    ∀ (perms : List (List (Coord × α))) (b : List α × ℚ),
      ∃ r, perms.foldl (tspStep D home) (some b) = some r := by
  intro perms
  induction perms with
  | nil => intro b; exact ⟨b, rfl⟩
  | cons p rest ih =>
    intro b
    rw [List.foldl_cons]
    obtain ⟨b', hb'⟩ := tspStep_isSome D home (some b) p
    rw [hb']
    exact ih b'

theorem tspFold_min (D : Coord → Coord → ℚ) (home : Coord) {α : Type} :
    ∀ (perms : List (List (Coord × α))) (acc : Option (List α × ℚ))
      (r : List α × ℚ),
      perms.foldl (tspStep D home) acc = some r →
      (∀ p ∈ perms, r.2 ≤ tourKm D home (p.map Prod.fst)) ∧
      (∀ b, acc = some b → r.2 ≤ b.2) := by
  intro perms
  induction perms with
  | nil =>
    intro acc r h
    refine ⟨by simp, ?_⟩
    intro b hb
    rw [hb] at h
    cases h
    exact le_refl _
  | cons p rest ih =>
    intro acc r h
    rw [List.foldl_cons] at h
    obtain ⟨h1, h2⟩ := ih (tspStep D home acc p) r h
    have hstep : ∀ b', tspStep D home acc p = some b' →
        b'.2 ≤ tourKm D home (p.map Prod.fst) ∧
        (∀ b, acc = some b → b'.2 ≤ b.2) := by
      intro b' hb'
      unfold tspStep at hb'
      cases acc with
      | none =>
        dsimp only at hb'
        cases hb'
        exact ⟨le_refl _, by intro b hb; cases hb⟩
      | some b =>
        dsimp only at hb'
        split_ifs at hb' with hlt
        · cases hb'
          exact ⟨le_refl _, by intro c hc; cases hc; exact le_of_lt hlt⟩
        · cases hb'
          exact ⟨le_of_not_lt hlt, by intro c hc; cases hc; exact le_refl _⟩
    obtain ⟨b', hb'⟩ := tspStep_isSome D home acc p
    obtain ⟨hb'tour, hb'acc⟩ := hstep b' hb'
    refine ⟨?_, ?_⟩
    · intro q hq
      rcases List.mem_cons.mp hq with hq | hq
      · subst hq
        exact le_trans (h2 b' hb') hb'tour
      · exact h1 q hq
    · intro b hb
      exact le_trans (h2 b' hb') (hb'acc b hb)

/--
C4: for at most 7 stops `solve_tsp` dispatches to the brute-force
solver, which returns `([], 0)` on empty input, the two-leg round trip
on a single stop, and in general a total distance no larger than the
`home → stops → home` tour distance of every permutation of the stops.
-/
theorem claim_C4_tsp_bruteforce (D : Coord → Coord → ℚ) (home : Coord)
    {α : Type} [DecidableEq α] (stops : List (Coord × α))
    (h7 : stops.length ≤ 7) :
    solve_tsp D home stops = solve_tsp_bruteforce D home stops ∧
    (stops = [] → solve_tsp_bruteforce D home stops = ([], 0)) ∧
    (∀ s, stops = [s] →
      solve_tsp_bruteforce D home stops =
        ([s.2], D home s.1 + D s.1 home)) ∧
    (stops ≠ [] → ∀ p ∈ stops.permutations',
      (solve_tsp_bruteforce D home stops).2 ≤
        tourKm D home (p.map Prod.fst)) := by
  refine ⟨by unfold solve_tsp; rw [if_pos h7], ?_, ?_, ?_⟩
  · intro h; subst h; rfl
  · intro s h; subst h; rfl
  · intro hne p hp
    cases stops with
    | nil => exact absurd rfl hne
    | cons s tl =>
      cases tl with
      | nil =>
        have hps := List.mem_permutations'.mp hp
        rw [List.perm_singleton] at hps
        subst hps
        simp [solve_tsp_bruteforce, tourKm, pathBackKm]
      | cons s' tl' =>
        have hmem : (s :: s' :: tl') ∈ (s :: s' :: tl').permutations' :=
          List.mem_permutations'.mpr (List.Perm.refl _)
        cases hperm : (s :: s' :: tl').permutations' with
        | nil => rw [hperm] at hmem; cases hmem
        | cons q qs =>
          obtain ⟨r, hr⟩ := tspFold_isSome D home qs
            (q.map Prod.snd, tourKm D home (q.map Prod.fst))
          have hscan : tspScan D home ((s :: s' :: tl').permutations') =
              some r := by
            unfold tspScan
            rw [hperm, List.foldl_cons]
            have hq : tspStep D home none q =
                some (q.map Prod.snd, tourKm D home (q.map Prod.fst)) := rfl
            rw [hq, hr]
          have hmin := tspFold_min D home ((s :: s' :: tl').permutations')
            none r hscan
          have hval : solve_tsp_bruteforce D home (s :: s' :: tl') = r := by
            show (tspScan D home ((s :: s' :: tl').permutations')).getD
              ([], 0) = r
            rw [hscan]
            rfl
          rw [hval]
          exact hmin.1 p hp

/-- Witness for C4 on a concrete two-stop instance with the constant
metric. -/
theorem claim_C4_tsp_bruteforce_witness :
    (solve_tsp_bruteforce (fun _ _ => (1:ℚ)) ⟨0, 0⟩
        [(⟨0, 0⟩, (1:ℤ)), (⟨1, 1⟩, 2)]).2 ≤
      tourKm (fun _ _ => (1:ℚ)) ⟨0, 0⟩
        ([((⟨1, 1⟩ : Coord), (2:ℤ)), (⟨0, 0⟩, 1)].map Prod.fst) :=
  (claim_C4_tsp_bruteforce (fun _ _ => 1) ⟨0, 0⟩
      [(⟨0, 0⟩, 1), (⟨1, 1⟩, 2)] (by decide)).2.2.2
    (by decide) [(⟨1, 1⟩, 2), (⟨0, 0⟩, 1)] (by with_unfolding_all decide)

/-! ## Claim C9 — a placed flexible task overruns its gap by at most
4 minutes -/

theorem int_le_zero_of_cast_le_half {z : ℤ} (h : (z : ℚ) ≤ 1/2) :
    z ≤ 0 := by
  by_contra hc
  push_neg at hc
  have : (1 : ℚ) ≤ (z : ℚ) := by exact_mod_cast hc
  linarith

theorem findBest_spec (T : Coord → Coord → ℚ) (gap : Gap) (current : ℤ)
    (prev : Coord) :
    ∀ (remaining : List Inspection) (acc : Option (Inspection × ℚ))
      (r : Inspection × ℚ),
      remaining.foldl (findBestStep T gap current prev) acc = some r →
      acc = some r ∨
      (r.1 ∈ remaining ∧
        (current : ℚ) + T prev r.1.coord + (r.1.durationMinutes : ℚ) ≤
          (gap.endMin : ℚ)) := by
  intro remaining
  induction remaining with
  | nil => intro acc r h; exact Or.inl h
  | cons ins rest ih =>
    intro acc r h
    rw [List.foldl_cons] at h
    rcases ih _ r h with hacc | ⟨hmem, hfeas⟩
    · unfold findBestStep at hacc
      dsimp only at hacc
      split_ifs at hacc with hfit
      · cases acc with
        | none =>
          dsimp only at hacc
          cases hacc
          exact Or.inr ⟨List.mem_cons_self _ _, hfit⟩
        | some b =>
          dsimp only at hacc
          split_ifs at hacc with hlt
          · cases hacc
            exact Or.inr ⟨List.mem_cons_self _ _, hfit⟩
          · cases hacc
            exact Or.inl rfl
      · exact Or.inl hacc
    · exact Or.inr ⟨List.mem_cons_of_mem _ hmem, hfeas⟩

/--
C9: every flexible inspection the mixed scheduler's per-gap placement
loop (`fillGapAux`, the `while` loop of `schedule_mixed_route`) places
into a gap ends at most 4 minutes after the gap's end: feasibility is
checked on the unrounded clock (`current + travel + duration ≤ gap.end`)
and the subsequent round-up to a 5-minute boundary adds at most
4 minutes.  Hypotheses: the travel oracle is nonnegative, the running
clock starts nonnegative, and the remaining durations are nonnegative.
-/
theorem claim_C9_gap_overrun (T : Coord → Coord → ℚ) (gap : Gap)
    (hT : ∀ a b, 0 ≤ T a b) :
    ∀ (fuel : ℕ) (remaining : List Inspection) (current : ℤ) (prev : Coord),
      0 ≤ current →
      (∀ ins ∈ remaining, 0 ≤ ins.durationMinutes) →
      ∀ a ∈ (fillGapAux T gap fuel remaining current prev).1,
        a.endMin ≤ gap.endMin + 4 := by
  intro fuel
  induction fuel with
  | zero =>
    intro remaining current prev _ _ a ha
    simp [fillGapAux] at ha
  | succ n ih =>
    intro remaining current prev hcur hdur a ha
    rw [fillGapAux] at ha
    split_ifs at ha with hcond
    · cases hfb : findBest T gap current prev remaining with
      | none => rw [hfb] at ha; simp at ha
      | some br =>
        rw [hfb] at ha
        obtain ⟨best, sc⟩ := br
        dsimp only at ha
        have hbest := findBest_spec T gap current prev remaining none
          (best, sc) hfb
        rcases hbest with habs | ⟨hbmem, hbfeas⟩
        · cases habs
        have htv0 : 0 ≤ pythonRound (T prev best.coord) :=
          pythonRound_nonneg (hT prev best.coord)
        have hcur1 : (0:ℤ) ≤ current + pythonRound (T prev best.coord) := by
          omega
        have hfit : current + pythonRound (T prev best.coord) +
            best.durationMinutes ≤ gap.endMin := by
          have hround := pythonRound_le_add_half (T prev best.coord)
          have hq : ((current + pythonRound (T prev best.coord) +
              best.durationMinutes - gap.endMin : ℤ) : ℚ) ≤ 1/2 := by
            push_cast
            linarith
          have := int_le_zero_of_cast_le_half hq
          omega
        have hendle : roundedStartMin
              (current + pythonRound (T prev best.coord)) +
            best.durationMinutes ≤ gap.endMin + 4 := by
          have := roundedStartMin_le hcur1
          omega
        rcases List.mem_cons.mp ha with rfl | ha'
        · exact hendle
        · have hend0 : (0:ℤ) ≤ roundedStartMin
                (current + pythonRound (T prev best.coord)) +
              best.durationMinutes := by
            have := roundedStartMin_nonneg
              (current + pythonRound (T prev best.coord))
            have := hdur best hbmem
            omega
          exact ih (remaining.erase best)
            (roundedStartMin (current + pythonRound (T prev best.coord)) +
              best.durationMinutes)
            best.coord hend0
            (fun i hi => hdur i (List.erase_subset _ _ hi)) a ha'
    · simp at ha

set_option maxRecDepth 100000 in
/-- Witness for C9: one 30-minute inspection placed into the
09:00–10:00 gap with constant 7-minute travel starts 09:10 and ends
09:40, within the 4-minute overrun bound. -/
theorem claim_C9_gap_overrun_witness :
    (⟨⟨2, "", "", 3, ⟨2, 2⟩, 30, 0, 0⟩, 550, 580, 7⟩ : Assigned).endMin ≤
      (⟨540, 600, ⟨0, 0⟩, ⟨0, 0⟩⟩ : Gap).endMin + 4 :=
  claim_C9_gap_overrun (fun _ _ => 7) ⟨540, 600, ⟨0, 0⟩, ⟨0, 0⟩⟩
    (fun _ _ => by norm_num) 1 [⟨2, "", "", 3, ⟨2, 2⟩, 30, 0, 0⟩] 540
    ⟨0, 0⟩ (by decide) (by with_unfolding_all decide)
    ⟨⟨2, "", "", 3, ⟨2, 2⟩, 30, 0, 0⟩, 550, 580, 7⟩
    (by with_unfolding_all decide)

/-! ## Claim C1 — all-locked routes (corrected: the first locked stop's
travel figure is hard-coded to 0, not computed from home) -/

theorem existingOnlyAux_times (T D : Coord → Coord → ℚ) :
    ∀ (l : List Inspection) (prev : Coord) (seq : ℕ),
      ((existingOnlyAux T D prev seq l).1).map
          (fun s => (s.startMin, s.endMin)) =
        l.map (fun i => (i.scheduledStartMin, i.scheduledEndMin)) := by
  intro l
  induction l with
  | nil => intro prev seq; rfl
  | cons i tl ih =>
    intro prev seq
    simp only [existingOnlyAux, List.map_cons, List.map]
    rw [ih]

theorem existingOnlyAux_ids (T D : Coord → Coord → ℚ) :
    ∀ (l : List Inspection) (prev : Coord) (seq : ℕ),
      ((existingOnlyAux T D prev seq l).1).map Stop.monday_item_id =
        l.map Inspection.id := by
  intro l
  induction l with
  | nil => intro prev seq; rfl
  | cons i tl ih =>
    intro prev seq
    simp only [existingOnlyAux, List.map_cons, List.map]
    rw [ih]

theorem existingOnlyAux_startMins (T D : Coord → Coord → ℚ) :
    ∀ (l : List Inspection) (prev : Coord) (seq : ℕ),
      ((existingOnlyAux T D prev seq l).1).map Stop.startMin =
        l.map Inspection.scheduledStartMin := by
  intro l
  induction l with
  | nil => intro prev seq; rfl
  | cons i tl ih =>
    intro prev seq
    simp only [existingOnlyAux, List.map_cons, List.map]
    rw [ih]

theorem existingOnlyAux_travel (T D : Coord → Coord → ℚ) :
    ∀ (l : List Inspection) (prev : Coord) (seq : ℕ), 2 ≤ seq →
      ((existingOnlyAux T D prev seq l).1).map
          Stop.travel_from_previous_mins =
        ((prev :: l.map Inspection.coord).zip
          (l.map Inspection.coord)).map
          (fun p => pythonRound (T p.1 p.2)) := by
  intro l
  induction l with
  | nil => intro prev seq _; rfl
  | cons i tl ih =>
    intro prev seq hseq
    have h1 : seq ≠ 1 := by omega
    simp only [existingOnlyAux, List.map_cons, List.map,
      List.zip_cons_cons, if_neg h1]
    rw [ih i.coord (seq + 1) (by omega)]
    rfl

/--
Counterexample to C1 as stated: for a single locked inspection at a
coordinate distinct from home, with a travel oracle returning 7 minutes
everywhere, the emitted first stop carries
`travel_from_previous_mins = 0` (the `seq == 1` branch of
`build_existing_only_route`), not the 7-minute home→stop figure the
claim requires.
-/
theorem claim_C1_counterexample :
    ((build_existing_only_route (fun _ _ => 7) (fun _ _ => 3)
        ⟨"w1", "W", ⟨0, 0⟩, 540⟩
        [⟨1, "", "", 3, ⟨1, 1⟩, 60, 600, 660⟩] ⟨0, 0⟩).1).map
      Stop.travel_from_previous_mins = [0] ∧
    pythonRound ((fun _ _ => (7:ℚ)) (⟨0, 0⟩ : Coord) (⟨1, 1⟩ : Coord)) = 7 ∧
    (0 : ℤ) ≠ 7 := by
  refine ⟨?_, ?_, by decide⟩
  · with_unfolding_all decide
  · with_unfolding_all decide

/--
C1 amended: an all-locked route emits the locked stops in ascending
order of their fixed start time, carrying the fixed start/end times of
the sorted inspections; the first stop's travel figure is 0 (the
single-window first-stop rule does apply here), and every later stop
carries the rounded travel time from its predecessor's coordinate.
-/
theorem claim_C1_existing_only_route (T D : Coord → Coord → ℚ)
    (inspector : Inspector) (existing : List Inspection) (home : Coord) :
    List.Sorted (· ≤ ·)
      (((build_existing_only_route T D inspector existing home).1).map
        Stop.startMin) ∧
    ((build_existing_only_route T D inspector existing home).1).map
        Stop.monday_item_id =
      (sortByScheduledStart existing).map Inspection.id ∧
    ((build_existing_only_route T D inspector existing home).1).map
        (fun s => (s.startMin, s.endMin)) =
      (sortByScheduledStart existing).map
        (fun i => (i.scheduledStartMin, i.scheduledEndMin)) ∧
    ((build_existing_only_route T D inspector existing home).1).map
        Stop.travel_from_previous_mins =
      (match sortByScheduledStart existing with
       | [] => []
       | i :: tl =>
         0 :: ((i :: tl).zip tl).map
           (fun p => pythonRound (T p.1.coord p.2.coord))) := by
  have hb : (build_existing_only_route T D inspector existing home).1 =
      (existingOnlyAux T D home 1 (sortByScheduledStart existing)).1 := rfl
  refine ⟨?_, ?_, ?_, ?_⟩
  · rw [hb, existingOnlyAux_startMins]
    haveI : IsTotal Inspection
        (fun a b => a.scheduledStartMin ≤ b.scheduledStartMin) :=
      ⟨fun a b => le_total _ _⟩
    haveI : IsTrans Inspection
        (fun a b => a.scheduledStartMin ≤ b.scheduledStartMin) :=
      ⟨fun _ _ _ hab hbc => le_trans hab hbc⟩
    have hs := List.sorted_insertionSort
      (fun a b : Inspection =>
        a.scheduledStartMin ≤ b.scheduledStartMin) existing
    unfold sortByScheduledStart
    exact List.pairwise_map.mpr hs
  · rw [hb, existingOnlyAux_ids]
  · rw [hb, existingOnlyAux_times]
  · rw [hb]
    cases hs : sortByScheduledStart existing with
    | nil => rfl
    | cons i tl =>
      have step : ((existingOnlyAux T D home 1 (i :: tl)).1).map
          Stop.travel_from_previous_mins =
          0 :: ((existingOnlyAux T D i.coord 2 tl).1).map
            Stop.travel_from_previous_mins := by
        simp [existingOnlyAux]
      rw [step, existingOnlyAux_travel T D tl i.coord 2 (by omega)]
      have hcoords : (i.coord :: tl.map Inspection.coord) =
          (i :: tl).map Inspection.coord := rfl
      rw [hcoords,
        List.zip_map Inspection.coord Inspection.coord (i :: tl) tl,
        List.map_map]
      rfl

/-! ## Claim C2 — non-decreasing stop-time chain (corrected: the chain
holds for single-window routes, but mixed routes can break it by an
inserted stop overrunning into the next locked stop) -/

theorem newStopsAux_chain (T D : Coord → Coord → ℚ)
    (hT : ∀ a b, 0 ≤ T a b) :
    ∀ (l : List Inspection) (current : ℤ) (prev : Coord) (seq : ℕ),
      (∀ ins ∈ l, 0 ≤ ins.durationMinutes) → 0 ≤ current →
      newSchedOk T l current prev seq = true →
      stopsChainOk (newStopsAux T D l current prev seq) = true ∧
      ∀ s ∈ (newStopsAux T D l current prev seq).head?,
        current ≤ s.startMin := by
  intro l
  induction l with
  | nil =>
    intro current prev seq _ _ _
    exact ⟨rfl, by simp [newStopsAux]⟩
  | cons ins tl ih =>
    intro current prev seq hdur hcur hok
    rw [newSchedOk] at hok
    rw [Bool.and_eq_true, Bool.and_eq_true, decide_eq_true_eq,
      decide_eq_true_eq] at hok
    obtain ⟨⟨hlt1, hlt2⟩, hokrest⟩ := hok
    have hdur0 : 0 ≤ ins.durationMinutes :=
      hdur ins (List.mem_cons_self _ _)
    have hcur1 : (0:ℤ) ≤
        (if seq = 1 then current else current +
          pythonRound (T prev ins.coord)) := by
      split_ifs
      · exact hcur
      · have := pythonRound_nonneg (hT prev ins.coord)
        omega
    have hge : current ≤
        (if seq = 1 then current else current +
          pythonRound (T prev ins.coord)) := by
      split_ifs
      · exact le_refl _
      · have := pythonRound_nonneg (hT prev ins.coord)
        omega
    have hstart_eq : roundedStartMin
        (if seq = 1 then current else current +
          pythonRound (T prev ins.coord)) =
        roundUp5 (if seq = 1 then current else current +
          pythonRound (T prev ins.coord)) :=
      roundedStartMin_of_bounds hcur1 hlt1
    have hstart_ge : current ≤ roundedStartMin
        (if seq = 1 then current else current +
          pythonRound (T prev ins.coord)) := by
      rw [hstart_eq]
      exact le_trans hge (le_roundUp5 _)
    have hstart_nonneg := roundedStartMin_nonneg
      (if seq = 1 then current else current +
        pythonRound (T prev ins.coord))
    have hend_nonneg : (0:ℤ) ≤ roundedStartMin
        (if seq = 1 then current else current +
          pythonRound (T prev ins.coord)) + ins.durationMinutes := by
      omega
    have hwrap : clockWrap (roundedStartMin
        (if seq = 1 then current else current +
          pythonRound (T prev ins.coord)) + ins.durationMinutes) =
        roundedStartMin
          (if seq = 1 then current else current +
            pythonRound (T prev ins.coord)) + ins.durationMinutes :=
      Int.emod_eq_of_lt hend_nonneg hlt2
    obtain ⟨ihchain, ihhead⟩ := ih
      (roundedStartMin
        (if seq = 1 then current else current +
          pythonRound (T prev ins.coord)) + ins.durationMinutes)
      ins.coord (seq + 1)
      (fun i hi => hdur i (List.mem_cons_of_mem _ hi))
      hend_nonneg hokrest
    rw [newStopsAux]
    cases hrest : newStopsAux T D tl
        (roundedStartMin
          (if seq = 1 then current else current +
            pythonRound (T prev ins.coord)) + ins.durationMinutes)
        ins.coord (seq + 1) with
    | nil =>
      refine ⟨?_, ?_⟩
      · simp only [stopsChainOk, decide_eq_true_eq]
        rw [hwrap]
        omega
      · intro s hs
        rw [List.head?_cons, Option.mem_def] at hs
        cases hs
        exact hstart_ge
    | cons s' rest' =>
      have hs' : s'.startMin ≥ roundedStartMin
          (if seq = 1 then current else current +
            pythonRound (T prev ins.coord)) + ins.durationMinutes := by
        have := ihhead s' (by rw [hrest]; rfl)
        omega
      rw [hrest] at ihchain
      refine ⟨?_, ?_⟩
      · simp only [stopsChainOk, Bool.and_eq_true, decide_eq_true_eq]
        refine ⟨⟨?_, ?_⟩, ?_⟩
        · show roundedStartMin _ ≤ clockWrap _
          rw [hwrap]
          omega
        · show clockWrap _ ≤ s'.startMin
          rw [hwrap]
          omega
        · exact ihchain
      · intro s hs
        rw [List.head?_cons, Option.mem_def] at hs
        cases hs
        exact hstart_ge

/--
Counterexample to C2 as stated: in a mixed route (worker available from
09:00, one locked stop 10:00–11:00, one flexible 53-minute inspection,
constant 7-minute travel), the flexible stop is placed at the unrounded
clock 09:07, feasible because 547 + 53 = 600 ≤ 600, but its start rounds
up to 09:10, so it ends 10:03 — after the locked stop's 10:00 start.
The emitted stop sequence violates `end ≤ next start`.
-/
theorem claim_C2_counterexample :
    stopsChainOk ((schedule_mixed_route (fun _ _ => 7) (fun _ _ => 3)
        ⟨"w1", "W", ⟨0, 0⟩, 540⟩
        [⟨1, "", "", 3, ⟨1, 1⟩, 60, 600, 660⟩]
        [⟨2, "", "", 3, ⟨2, 2⟩, 53, 0, 0⟩] ⟨0, 0⟩).1) = false := by
  with_unfolding_all decide

/--
C2 amended: for routes produced by the single-window scheduler
(`schedule_new_only_route`) the stop times form a non-decreasing chain —
each stop's start is at most its end and each stop's end is at most the
next stop's start — provided the travel oracle is nonnegative, the
ordered durations are nonnegative, the available-start clock is
nonnegative and the whole schedule stays within the day (no midnight
wrap-around).  Mixed routes do not satisfy the chain: an inserted
flexible stop may end up to 4 minutes after the next locked stop's
start (see the counterexample and C9).
-/
theorem claim_C2_schedule_chain (T D : Coord → Coord → ℚ)
    (inspector : Inspector) (new : List Inspection) (home : Coord)
    (hT : ∀ a b, 0 ≤ T a b)
    (hdur : ∀ ins ∈ newRouteOrder D home new, 0 ≤ ins.durationMinutes)
    (hstart : 0 ≤ inspector.availableStartMin)
    (hok : newSchedOk T (newRouteOrder D home new)
      inspector.availableStartMin home 1 = true) :
    stopsChainOk ((schedule_new_only_route T D inspector new home).1) =
      true := by
  have hdef : (schedule_new_only_route T D inspector new home).1 =
      newStopsAux T D (newRouteOrder D home new)
        inspector.availableStartMin home 1 := rfl
  rw [hdef]
  exact (newStopsAux_chain T D hT (newRouteOrder D home new)
    inspector.availableStartMin home 1 hdur hstart hok).1

set_option maxRecDepth 1000000 in
/-- Witness for the amended C2: two new inspections, constant metric. -/
theorem claim_C2_schedule_chain_witness :
    stopsChainOk ((schedule_new_only_route (fun _ _ => 7) (fun _ _ => 3)
        ⟨"w1", "W", ⟨0, 0⟩, 540⟩
        [⟨1, "", "", 3, ⟨1, 1⟩, 45, 0, 0⟩, ⟨2, "", "", 3, ⟨2, 2⟩, 30, 0, 0⟩]
        ⟨0, 0⟩).1) = true :=
  claim_C2_schedule_chain (fun _ _ => 7) (fun _ _ => 3)
    ⟨"w1", "W", ⟨0, 0⟩, 540⟩
    [⟨1, "", "", 3, ⟨1, 1⟩, 45, 0, 0⟩, ⟨2, "", "", 3, ⟨2, 2⟩, 30, 0, 0⟩]
    ⟨0, 0⟩ (fun _ _ => by norm_num) (by with_unfolding_all decide)
    (by decide) (by with_unfolding_all decide)

end VRP
